import Mathlib

/-!
Verification of the mujina miner's dissector and Stratum V2 job source.

The definitions below are shallow embeddings of the Rust sources:
bytes are naturals (< 256 at well-formed inputs), byte strings are
`List Nat`, Rust `u32` values are naturals reduced mod `2 ^ 32` where
the code can overflow, and fallible Rust functions return `Option`.
Timestamps (Rust `f64`) are embedded as rationals; the functions under
study only copy them.
-/

namespace Mujina

abbrev Byte := Nat

/-! ### mujina-dissect/src/dissect.rs -/

/-- Embeds `crc5_is_valid` from dissect.rs: the source is a stub that
ignores its input and returns `true` ("For now, just return true"). -/
def crc5_is_valid (_data : List Byte) : Bool := true

/-- Embeds `crc16_is_valid` from dissect.rs: likewise a stub returning
`true` for every payload and expected-CRC pair. -/
def crc16_is_valid (_data : List Byte) (_expected : List Byte) : Bool := true

/-- Embeds `TypeFlags` from dissect.rs. -/
structure TypeFlags where
  is_work : Bool
  is_broadcast : Bool
  cmd : Byte
  deriving Repr, DecidableEq

/-- Embeds `TypeFlags::from_byte`. -/
def TypeFlags.from_byte (b : Byte) : TypeFlags :=
  { is_work := b &&& 0x80 ≠ 0
    is_broadcast := b &&& 0x40 ≠ 0
    cmd := b &&& 0x1f }

/-- Embeds `JobFullFormat` from dissect.rs; each midstate is a 32-byte slice. -/
structure JobFullFormat where
  job_id : Byte
  nbits : Nat
  ntime : Nat
  merkle_root_lsw : Nat
  midstates : List (List Byte)
  deriving Repr, DecidableEq

/-- Embeds `JobMidstateFormat` from dissect.rs. -/
structure JobMidstateFormat where
  job_id : Byte
  midstate_num : Byte
  nbits : Nat
  ntime : Nat
  merkle_root_lsw : Nat
  midstates : List (List Byte)
  deriving Repr, DecidableEq

/-- Embeds `MiningJobData` from dissect.rs. -/
inductive MiningJobData where
  | Full (job : JobFullFormat)
  | Midstate (job : JobMidstateFormat)
  deriving Repr, DecidableEq

/-- Embeds `Command` from dissect.rs. -/
inductive Command where
  | SetChipAddress (addr : Byte)
  | WriteRegister (chip_addr : Byte) (reg_addr : Byte) (value : Nat)
  | ReadRegister (chip_addr : Byte) (reg_addr : Byte)
  | WriteRegisterBroadcast (reg_addr : Byte) (value : Nat)
  | ReadRegisterBroadcast (reg_addr : Byte)
  | MiningJob (job : MiningJobData)
  | Unknown (type_flags : Byte) (payload : List Byte)
  deriving Repr, DecidableEq

/-- Embeds `Response` from dissect.rs. -/
inductive Response where
  | RegisterValue (chip_id : List Byte) (reg_addr : Byte) (value : Nat)
  | NonceFound (job_id : Byte) (nonce : Nat) (midstate_idx : Option Byte)
      (core_id : Option Nat)
  | Version (version : Nat)
  | Unknown (response_type : Byte) (payload : List Byte)
  deriving Repr, DecidableEq

/-- Embeds `ResponseType` from dissect.rs. -/
inductive ResponseType where
  | RegisterRead
  | NonceFound
  | Version
  deriving Repr, DecidableEq

/-- Embeds `ResponseType::from_u8`: tags 0, 2 and 6 map to their variants,
every other value falls through to `RegisterRead`. -/
def ResponseType.from_u8 (v : Byte) : ResponseType :=
  match v with
  | 0 => ResponseType.RegisterRead
  | 2 => ResponseType.NonceFound
  | 6 => ResponseType.Version
  | _ => ResponseType.RegisterRead

/-- Embeds `FrameContent` from dissect.rs. -/
inductive FrameContent where
  | Command (c : Command)
  | Response (r : Response)
  | Invalid (msg : String)
  deriving Repr, DecidableEq

/-- Embeds `CrcStatus` from dissect.rs. -/
inductive CrcStatus where
  | Valid
  | Invalid
  | NotChecked
  deriving Repr, DecidableEq

/-- Little-endian `u32::from_le_bytes`. -/
def u32_from_le (b0 b1 b2 b3 : Byte) : Nat :=
  b0 + 256 * b1 + 65536 * b2 + 16777216 * b3

/-- Little-endian `u16::from_le_bytes`. -/
def u16_from_le (b0 b1 : Byte) : Nat := b0 + 256 * b1

/-- Embeds `decode_command` from dissect.rs (indexing after the length
checks is total, so `List.getD _ 0` reads the checked bytes). -/
def decode_command (type_flags : TypeFlags) (data : List Byte) : FrameContent :=
  if data.length < 5 then FrameContent.Invalid "Command too short"
  else
    match type_flags.cmd, type_flags.is_broadcast with
    | 0, false =>
        FrameContent.Command (Command.SetChipAddress (data.getD 4 0))
    | 1, false =>
        if 10 ≤ data.length then
          FrameContent.Command (Command.WriteRegister (data.getD 4 0) (data.getD 5 0)
            (u32_from_le (data.getD 6 0) (data.getD 7 0) (data.getD 8 0) (data.getD 9 0)))
        else FrameContent.Invalid "WriteRegister too short"
    | 2, false =>
        if 6 ≤ data.length then
          FrameContent.Command (Command.ReadRegister (data.getD 4 0) (data.getD 5 0))
        else FrameContent.Invalid "ReadRegister too short"
    | 1, true =>
        if 9 ≤ data.length then
          FrameContent.Command (Command.WriteRegisterBroadcast (data.getD 4 0)
            (u32_from_le (data.getD 5 0) (data.getD 6 0) (data.getD 7 0) (data.getD 8 0)))
        else FrameContent.Invalid "WriteRegisterBroadcast too short"
    | 2, true =>
        FrameContent.Command (Command.ReadRegisterBroadcast (data.getD 4 0))
    | _, _ =>
        FrameContent.Command (Command.Unknown (data.getD 2 0) (data.drop 4))

/-- Embeds `decode_mining_job` from dissect.rs. -/
def decode_mining_job (data : List Byte) (length : Nat) : FrameContent :=
  if length = 148 ∧ 148 ≤ data.length then
    FrameContent.Command (Command.MiningJob (MiningJobData.Full
      { job_id := data.getD 4 0
        nbits := u32_from_le (data.getD 5 0) (data.getD 6 0) (data.getD 7 0) (data.getD 8 0)
        ntime := u32_from_le (data.getD 9 0) (data.getD 10 0) (data.getD 11 0) (data.getD 12 0)
        merkle_root_lsw :=
          u32_from_le (data.getD 13 0) (data.getD 14 0) (data.getD 15 0) (data.getD 16 0)
        midstates :=
          [(data.drop 17).take 32, (data.drop 49).take 32,
           (data.drop 81).take 32, (data.drop 113).take 32] }))
  else if 18 ≤ data.length then
    let midstate_num := data.getD 5 0
    let expected_len := 18 + midstate_num * 32
    if expected_len ≤ data.length then
      FrameContent.Command (Command.MiningJob (MiningJobData.Midstate
        { job_id := data.getD 4 0
          midstate_num := data.getD 5 0
          nbits := u32_from_le (data.getD 6 0) (data.getD 7 0) (data.getD 8 0) (data.getD 9 0)
          ntime :=
            u32_from_le (data.getD 10 0) (data.getD 11 0) (data.getD 12 0) (data.getD 13 0)
          merkle_root_lsw :=
            u32_from_le (data.getD 14 0) (data.getD 15 0) (data.getD 16 0) (data.getD 17 0)
          midstates :=
            (List.range midstate_num).filterMap fun i =>
              if 17 + i * 32 + 32 ≤ data.length - 2 then
                some ((data.drop (17 + i * 32)).take 32)
              else none }))
    else FrameContent.Invalid "Midstate job too short"
  else FrameContent.Invalid "Job frame too short"

/-- Embeds `dissect_command` from dissect.rs. -/
def dissect_command (data : List Byte) : FrameContent × CrcStatus :=
  if data.length < 5 then
    (FrameContent.Invalid "Frame too short", CrcStatus.NotChecked)
  else if data.getD 0 0 ≠ 0x55 ∨ data.getD 1 0 ≠ 0xAA then
    (FrameContent.Invalid "Invalid preamble", CrcStatus.NotChecked)
  else
    let type_flags := TypeFlags.from_byte (data.getD 2 0)
    let length := data.getD 3 0
    if data.length < length then
      (FrameContent.Invalid "Incomplete frame", CrcStatus.NotChecked)
    else
      let crc_status :=
        if type_flags.is_work then
          if length ≤ data.length ∧ 2 ≤ length then
            if crc16_is_valid ((data.take length).take (length - 2))
                ((data.take length).drop (length - 2)) then
              CrcStatus.Valid
            else CrcStatus.Invalid
          else CrcStatus.NotChecked
        else
          if length ≤ data.length then
            if crc5_is_valid (data.take length) then CrcStatus.Valid
            else CrcStatus.Invalid
          else CrcStatus.NotChecked
      let content :=
        if type_flags.is_work then decode_mining_job data length
        else decode_command type_flags data
      (content, crc_status)

/-- Embeds `dissect_response` from dissect.rs. -/
def dissect_response (data : List Byte) : FrameContent × CrcStatus :=
  if data.length < 3 then
    (FrameContent.Invalid "Response too short", CrcStatus.NotChecked)
  else if data.getD 0 0 ≠ 0xAA ∨ data.getD 1 0 ≠ 0x55 then
    (FrameContent.Invalid "Invalid response preamble", CrcStatus.NotChecked)
  else
    let crc_byte := data.getD (data.length - 1) 0
    let response_type := ResponseType.from_u8 ((crc_byte >>> 5) &&& 0x07)
    let crc_status :=
      if crc5_is_valid data then CrcStatus.Valid else CrcStatus.Invalid
    let content :=
      match response_type with
      | ResponseType.RegisterRead =>
          if 9 ≤ data.length then
            FrameContent.Response (Response.RegisterValue [data.getD 2 0, data.getD 3 0]
              (data.getD 4 0)
              (u32_from_le (data.getD 5 0) (data.getD 6 0) (data.getD 7 0) (data.getD 8 0)))
          else FrameContent.Invalid "Register read response too short"
      | ResponseType.NonceFound =>
          if 8 ≤ data.length then
            let ext :=
              if 11 ≤ data.length then
                (some (data.getD 7 0), some (u16_from_le (data.getD 8 0) (data.getD 9 0)))
              else ((none : Option Byte), (none : Option Nat))
            FrameContent.Response (Response.NonceFound (data.getD 2 0)
              (u32_from_le (data.getD 3 0) (data.getD 4 0) (data.getD 5 0) (data.getD 6 0))
              ext.1 ext.2)
          else FrameContent.Invalid "Nonce response too short"
      | ResponseType.Version =>
          if 7 ≤ data.length then
            FrameContent.Response (Response.Version
              (u32_from_le (data.getD 2 0) (data.getD 3 0) (data.getD 4 0) (data.getD 5 0)))
          else FrameContent.Invalid "Version response too short"
    (content, crc_status)

/-! ### mujina-dissect/src/serial.rs -/

/-- Embeds `Direction` from serial.rs. -/
inductive Direction where
  | HostToChip
  | ChipToHost
  deriving Repr, DecidableEq

/-- Embeds `SerialFrame` from serial.rs. -/
structure SerialFrame where
  direction : Direction
  start_time : ℚ
  end_time : ℚ
  data : List Byte
  has_errors : Bool
  deriving Repr, DecidableEq

/-- Embeds `AssemblyState` from serial.rs. -/
inductive AssemblyState where
  | Idle
  | FoundFirst (timestamp : ℚ)
  | Collecting (start_time : ℚ) (data : List Byte) (expected_len : Option Nat)
  deriving Repr, DecidableEq

/-- First preamble byte expected in each direction. -/
def preamble_first : Direction → Byte
  | Direction.HostToChip => 0x55
  | Direction.ChipToHost => 0xAA

/-- Second preamble byte expected in each direction. -/
def preamble_second : Direction → Byte
  | Direction.HostToChip => 0xAA
  | Direction.ChipToHost => 0x55

/-- The `Idle` arm of `FrameAssembler::process_byte`: wait for the first
preamble byte of the assembler's direction. -/
def process_idle (dir : Direction) (byte : Byte) (timestamp : ℚ) : AssemblyState :=
  if byte = preamble_first dir then AssemblyState.FoundFirst timestamp
  else AssemblyState.Idle

/-- Embeds `FrameAssembler::process_byte` from serial.rs, returning the
successor state and the completed frame, if any.  The `FoundFirst`
mismatch arm re-processes the byte in the `Idle` state, which is inlined
here as `process_idle`. -/
def process_byte (dir : Direction) (state : AssemblyState) (byte : Byte)
    (timestamp : ℚ) (has_error : Bool) : AssemblyState × Option SerialFrame :=
  match state with
  | AssemblyState.Idle => (process_idle dir byte timestamp, none)
  | AssemblyState.FoundFirst start_time =>
      if byte = preamble_second dir then
        (AssemblyState.Collecting start_time [preamble_first dir, byte] none, none)
      else
        (process_idle dir byte timestamp, none)
  | AssemblyState.Collecting start_time data expected_len =>
      let data' := data ++ [byte]
      let expected' :=
        if dir = Direction.HostToChip ∧ data'.length = 4 ∧ expected_len = none then
          some byte
        else expected_len
      let complete :=
        match dir with
        | Direction.HostToChip =>
            match expected' with
            | some len => decide (len ≤ data'.length)
            | none => false
        | Direction.ChipToHost =>
            decide (7 ≤ data'.length) &&
              (decide (20 ≤ data'.length) ||
                decide (data'.length = 6 ∨ data'.length = 7 ∨ data'.length = 9 ∨
                  data'.length = 10 ∨ data'.length = 11))
      if complete then
        (AssemblyState.Idle,
         some { direction := dir, start_time := start_time, end_time := timestamp,
                data := data', has_errors := has_error })
      else
        (AssemblyState.Collecting start_time data' expected', none)

/-! ### mujina-dissect/src/i2c.rs -/

/-- Embeds `I2cTransaction` from i2c.rs. -/
structure I2cTransaction where
  start_time : ℚ
  end_time : ℚ
  address : Byte
  is_read : Bool
  data : List Byte
  success : Bool
  deriving Repr, DecidableEq

/-- Embeds `I2cOperation` from i2c.rs. -/
structure I2cOperation where
  start_time : ℚ
  end_time : ℚ
  address : Byte
  register : Option Byte
  write_data : Option (List Byte)
  read_data : Option (List Byte)
  deriving Repr, DecidableEq

/-- The single-transaction arm of `group_transactions`. -/
def single_op (t : I2cTransaction) : I2cOperation :=
  { start_time := t.start_time
    end_time := t.end_time
    address := t.address
    register := if t.data ≠ [] then some (t.data.getD 0 0) else none
    write_data := if t.is_read = false ∧ t.data ≠ [] then some t.data else none
    read_data := if t.is_read then some t.data else none }

/-- The fused write-then-read arm of `group_transactions`. -/
def fused_op (t1 t2 : I2cTransaction) : I2cOperation :=
  { start_time := t1.start_time
    end_time := t2.end_time
    address := t1.address
    register := some (t1.data.getD 0 0)
    write_data := if 1 < t1.data.length then some (t1.data.drop 1) else none
    read_data := some t2.data }

/-- Embeds `group_transactions` from i2c.rs: the index-based loop steps
by two when a non-read transaction with at least one data byte is
immediately followed by a read to the same address, and by one
otherwise. -/
def group_transactions : List I2cTransaction → List I2cOperation
  | [] => []
  | t1 :: rest =>
      if t1.is_read = false ∧ 1 ≤ t1.data.length then
        match rest with
        | t2 :: rest2 =>
            if t2.is_read = true ∧ t2.address = t1.address then
              fused_op t1 t2 :: group_transactions rest2
            else single_op t1 :: group_transactions (t2 :: rest2)
        | [] => [single_op t1]
      else single_op t1 :: group_transactions rest

/-! ### Stratum V2 wire messages (stratum_core types, value-level) -/

/-- SV2 `NewMiningJob` (fields used by the source; `merkle_root` is the
32-byte wire field as a byte list, `is_future` the accessor's value). -/
structure NewMiningJob where
  channel_id : Nat
  job_id : Nat
  is_future : Bool
  version : Nat
  merkle_root : List Byte
  deriving Repr, DecidableEq

/-- SV2 `SetNewPrevHash` (fields used by the source). -/
structure SetNewPrevHash where
  channel_id : Nat
  job_id : Nat
  prev_hash : List Byte
  min_ntime : Nat
  nbits : Nat
  deriving Repr, DecidableEq

/-- SV2 `SetTarget` (fields used by the source). -/
structure SetTarget where
  channel_id : Nat
  maximum_target : List Byte
  deriving Repr, DecidableEq

/-- SV2 `SubmitSharesStandard`. -/
structure SubmitSharesStandard where
  channel_id : Nat
  sequence_number : Nat
  job_id : Nat
  nonce : Nat
  ntime : Nat
  version : Nat
  deriving Repr, DecidableEq

/-! ### Decimal strings

Rust `u32::to_string` / `str::parse::<u32>` are embedded over digit
lists: a string is a `List Nat` of character values, a decimal digit
character being the value of the digit (an entry `≥ 10` stands for a
non-digit character, on which parsing fails). -/

/-- Decimal digits of `n`, most significant first; the `fuel` argument
(`n` itself at the call site, an upper bound on the digit count) makes
the recursion structural. -/
def decDigitsAux (fuel n : Nat) : List Nat :=
  match fuel with
  | 0 => []
  | fuel + 1 => if n = 0 then [] else decDigitsAux fuel (n / 10) ++ [n % 10]

/-- Decimal rendering of a `u32`, as `ToString` produces it: most
significant digit first, and `0` renders as the single digit `0`. -/
def decimal_string (n : Nat) : List Nat :=
  if n = 0 then [0] else decDigitsAux n n

/-- Rust `str::parse::<u32>`: requires a nonempty all-digit string whose
value fits in 32 bits. -/
def parse_u32 (s : List Nat) : Option Nat :=
  if s ≠ [] ∧ (∀ d ∈ s, d < 10) ∧ Nat.ofDigits 10 s.reverse < 2 ^ 32 then
    some (Nat.ofDigits 10 s.reverse)
  else none

/-! ### Job and share value types (mujina-miner job_source) -/

/-- Modelled from the spec: `GeneralPurposeBits`, the 16 rollable
general-purpose version bits (§3 JobTemplate); the type itself lives in
`job_source/mod.rs`, which is not part of the sources at hand.  The
constructor takes the two big-endian bytes produced by
`u16::to_be_bytes`. -/
structure GeneralPurposeBits where
  bits : Nat
  deriving Repr, DecidableEq

/-- Modelled from the spec: `GeneralPurposeBits::new` on the big-endian
byte pair of a 16-bit mask. -/
def GeneralPurposeBits.new (hi lo : Byte) : GeneralPurposeBits :=
  { bits := hi * 256 + lo }

/-- Modelled from the spec: `GeneralPurposeBits::full`, the SV2 default
of all 16 bits rollable (`gp_bits = 0xffff`, §4.E). -/
def GeneralPurposeBits.full : GeneralPurposeBits := { bits := 0xffff }

/-- Big-endian byte pair of a 16-bit value (`u16::to_be_bytes`). -/
def u16_to_be (n : Nat) : Byte × Byte := (n / 256, n % 256)

/-- Modelled from the spec: `VersionTemplate` (base version plus the
rollable general-purpose bits, §3); defined in `job_source/mod.rs`,
outside the sources at hand.  The base version is kept as the `u32`
consensus value. -/
structure VersionTemplate where
  base : Nat
  gp : GeneralPurposeBits
  deriving Repr, DecidableEq

/-- Modelled from the spec: `VersionTemplate::new`; the spec's template
invariant only requires version and bits to be present (§3), so the
constructor succeeds on every SV2 version. -/
def VersionTemplate.new (base : Nat) (gp : GeneralPurposeBits) : Option VersionTemplate :=
  some { base := base, gp := gp }

/-- Modelled from the spec: `MerkleRootKind` — a fixed 32-byte root or a
root-from-coinbase recipe, the latter unused by the SV2 core (§3). -/
inductive MerkleRootKind where
  | Fixed (root : List Byte)
  | FromCoinbase (recipe : List Byte)
  deriving Repr, DecidableEq

/-- The little-endian interpretation of a target byte string
(`bitcoin::pow::Target::from_le_bytes`), as a natural number. -/
def target_from_le_bytes (bytes : List Byte) : Nat := Nat.ofDigits 256 bytes

/-- `bitcoin::pow::Target::MAX`, the all-ones 256-bit value. -/
def target_max : Nat := 2 ^ 256 - 1

/-- Modelled from the spec: `JobTemplate` (§3); defined in
`job_source/mod.rs`, outside the sources at hand.  `id` is a decimal
string (digit list), `share_target` the 256-bit target value. -/
structure JobTemplate where
  id : List Nat
  prev_blockhash : List Byte
  version : VersionTemplate
  bits : Nat
  share_target : Nat
  time : Nat
  merkle_root : MerkleRootKind
  deriving Repr, DecidableEq

/-- Modelled from the spec: `Share` (§3); defined in
`job_source/mod.rs`, outside the sources at hand.  `job_id` is a string
(digit list), `version` the post-rolling consensus value. -/
structure Share where
  job_id : List Nat
  nonce : Nat
  time : Nat
  version : Nat
  extranonce2 : Option (List Byte)
  deriving Repr, DecidableEq

/-- Embeds `SourceEvent` (the two variants the SV2 source emits). -/
inductive SourceEvent where
  | UpdateJob (template : JobTemplate)
  | ReplaceJob (template : JobTemplate)
  deriving Repr, DecidableEq

/-! ### stratum_v2/messages.rs -/

/-- The all-ones default target `&[0xFF; 32]` used when `SetTarget` has
not yet been received. -/
def default_target : List Byte := List.replicate 32 0xFF

/-- Embeds `job_to_template` from messages.rs: build a `JobTemplate`
from a `NewMiningJob`, its matching `SetNewPrevHash`, the current
32-byte target and the optional version-rolling mask.  The Rust
`try_into` length checks on `merkle_root` and `prev_hash` become
`Option` guards. -/
def job_to_template (job : NewMiningJob) (prev_hash : SetNewPrevHash)
    (current_target : List Byte) (version_mask : Option Nat) : Option JobTemplate :=
  if job.merkle_root.length = 32 then
    let share_target :=
      if current_target.length = 32 then target_from_le_bytes current_target
      else target_max
    if prev_hash.prev_hash.length = 32 then
      let gp_bits :=
        match version_mask with
        | some mask =>
            let gp_mask := (mask >>> 13) &&& 0xffff
            GeneralPurposeBits.new (u16_to_be gp_mask).1 (u16_to_be gp_mask).2
        | none => GeneralPurposeBits.full
      (VersionTemplate.new job.version gp_bits).map fun version_template =>
        { id := decimal_string job.job_id
          prev_blockhash := prev_hash.prev_hash
          version := version_template
          bits := prev_hash.nbits
          share_target := share_target
          time := prev_hash.min_ntime
          merkle_root := MerkleRootKind.Fixed job.merkle_root }
    else none
  else none

/-- Embeds `share_to_submit` from messages.rs: parse `share.job_id` as a
`u32` and build a `SubmitSharesStandard`. -/
def share_to_submit (share : Share) (channel_id sequence_number : Nat) :
    Option SubmitSharesStandard :=
  (parse_u32 share.job_id).map fun job_id =>
    { channel_id := channel_id
      sequence_number := sequence_number
      job_id := job_id
      nonce := share.nonce
      ntime := share.time
      version := share.version }

/-! ### stratum_v2/state.rs -/

/-- Embeds `ProtocolState` from state.rs.  The `HashMap<u32,
NewMiningJob>` is embedded as an association list with distinct keys
(insertion replaces the binding for an existing key); the `AtomicU32`
sequence counter is the plain wrapped value, as the state is owned by a
single task. -/
structure ProtocolState where
  channel_id : Option Nat
  sequence_number : Nat
  future_jobs : List (Nat × NewMiningJob)
  prev_hash : Option SetNewPrevHash
  current_target : Option (List Byte)
  version_mask : Option Nat
  deriving Repr, DecidableEq

/-- Embeds `ProtocolState::new`. -/
def ProtocolState.new : ProtocolState :=
  { channel_id := none
    sequence_number := 0
    future_jobs := []
    prev_hash := none
    current_target := none
    version_mask := none }

/-- Embeds `ProtocolState::next_sequence_number`: `fetch_add(1)` returns
the old value and stores the wrapped successor. -/
def ProtocolState.next_sequence_number (st : ProtocolState) : Nat × ProtocolState :=
  (st.sequence_number,
   { st with sequence_number := (st.sequence_number + 1) % 2 ^ 32 })

/-- Embeds `ProtocolState::store_future_job`: `HashMap::insert` keyed by
`job_id`, replacing any existing binding. -/
def ProtocolState.store_future_job (st : ProtocolState) (job : NewMiningJob) :
    ProtocolState :=
  { st with future_jobs :=
      (job.job_id, job) :: st.future_jobs.filter fun p => p.1 ≠ job.job_id }

/-- Embeds `ProtocolState::get_future_job`. -/
def ProtocolState.get_future_job (st : ProtocolState) (job_id : Nat) :
    Option NewMiningJob :=
  st.future_jobs.lookup job_id

/-- Embeds `ProtocolState::clean_old_jobs`: when more than `keep_count`
future jobs are held, sort the job ids ascending (`sort_unstable` on
distinct `u32` keys; any sorting algorithm yields the same list) and
remove the smallest `len - keep_count` of them. -/
def ProtocolState.clean_old_jobs (st : ProtocolState) (keep_count : Nat) :
    ProtocolState :=
  if keep_count < st.future_jobs.length then
    let job_ids := (st.future_jobs.map Prod.fst).insertionSort (· ≤ ·)
    let to_remove := job_ids.length - keep_count
    { st with future_jobs :=
        st.future_jobs.filter fun p => !((job_ids.take to_remove).contains p.1) }
  else st

/-- The job ids currently held in `future_jobs`. -/
def ProtocolState.jobKeys (st : ProtocolState) : List Nat :=
  st.future_jobs.map Prod.fst

/-! ### stratum_v2/mod.rs — message and command handlers

Each handler returns the successor state, the `SourceEvent`s sent to the
scheduler, and whether it returned `Ok` (`run` logs a handler error and
keeps looping, so state mutations made before an error survive). -/

/-- Embeds `StratumV2Source::activate_job`: reads the state and, when
the named future job and a matching pending prev-hash are both present,
builds the template and emits `ReplaceJob`; `none` is the
`job_to_template` error. -/
def activate_job (st : ProtocolState) (job_id : Nat) : Option (List SourceEvent) :=
  match st.get_future_job job_id with
  | none => some []
  | some job =>
      match st.prev_hash with
      | some ph =>
          if ph.job_id = job_id then
            (job_to_template job ph
              (st.current_target.getD default_target)
              st.version_mask).map fun template => [SourceEvent.ReplaceJob template]
          else some []
      | none => some []

/-- Embeds `StratumV2Source::handle_new_mining_job`.  On the error path
(`?` on activation or on the non-future `UpdateJob` build) the trailing
`clean_old_jobs(10)` is skipped. -/
def handle_new_mining_job (st : ProtocolState) (job : NewMiningJob) :
    ProtocolState × List SourceEvent × Bool :=
  if job.is_future then
    let st1 := st.store_future_job job
    let activation :=
      match st1.prev_hash with
      | some ph => if ph.job_id = job.job_id then activate_job st1 job.job_id else some []
      | none => some []
    match activation with
    | none => (st1, [], false)
    | some events => (st1.clean_old_jobs 10, events, true)
  else
    let update :=
      match st.prev_hash with
      | some ph =>
          (job_to_template job ph
            (st.current_target.getD default_target)
            st.version_mask).map fun template => [SourceEvent.UpdateJob template]
      | none => some []
    match update with
    | none => (st, [], false)
    | some events => (st.clean_old_jobs 10, events, true)

/-- Embeds `StratumV2Source::handle_set_new_prev_hash`: store the
prev-hash, then try to activate the matching future job. -/
def handle_set_new_prev_hash (st : ProtocolState) (ph : SetNewPrevHash) :
    ProtocolState × List SourceEvent × Bool :=
  let st1 := { st with prev_hash := some ph }
  match activate_job st1 ph.job_id with
  | none => (st1, [], false)
  | some events => (st1, events, true)

/-- Embeds `StratumV2Source::handle_set_target`. -/
def handle_set_target (st : ProtocolState) (target : SetTarget) : ProtocolState :=
  { st with current_target := some target.maximum_target }

/-- The pool-to-miner mining messages the activation claims quantify
over. -/
inductive PoolMessage where
  | NMJ (job : NewMiningJob)
  | SNPH (ph : SetNewPrevHash)
  | STGT (target : SetTarget)
  deriving Repr, DecidableEq

/-- Embeds the `handle_pool_message` dispatch for the mining messages
above. -/
def handle_pool_message (st : ProtocolState) : PoolMessage →
    ProtocolState × List SourceEvent × Bool
  | PoolMessage.NMJ job => handle_new_mining_job st job
  | PoolMessage.SNPH ph => handle_set_new_prev_hash st ph
  | PoolMessage.STGT target => (handle_set_target st target, [], true)

/-- The main loop over pool messages: each message is handled in arrival
order and a handler error is logged, not propagated. -/
def process_messages : ProtocolState → List PoolMessage →
    ProtocolState × List SourceEvent
  | st, [] => (st, [])
  | st, msg :: rest =>
      let r := handle_pool_message st msg
      let rr := process_messages r.1 rest
      (rr.1, r.2.1 ++ rr.2)

/-- Share-submission error kinds of `handle_scheduler_command`. -/
inductive SubmitError where
  | NoChannel
  | InvalidJobId
  deriving Repr, DecidableEq

/-- Embeds `StratumV2Source::handle_scheduler_command` for
`SubmitShare`: require an opened channel, take the next sequence number
(before the `job_id` parse, as the code does), then build and send the
`SubmitSharesStandard`. -/
def handle_scheduler_command (st : ProtocolState) (share : Share) :
    ProtocolState × Except SubmitError SubmitSharesStandard :=
  match st.channel_id with
  | none => (st, Except.error SubmitError.NoChannel)
  | some channel_id =>
      let r := st.next_sequence_number
      match share_to_submit share channel_id r.1 with
      | none => (r.2, Except.error SubmitError.InvalidJobId)
      | some submit => (r.2, Except.ok submit)

/-- The main loop over scheduler commands: every `SubmitShare` is
processed, an error outcome is logged and the loop continues. -/
def run_scheduler_commands : ProtocolState → List Share →
    ProtocolState × List (Except SubmitError SubmitSharesStandard)
  | st, [] => (st, [])
  | st, share :: rest =>
      let r := handle_scheduler_command st share
      let rr := run_scheduler_commands r.1 rest
      (rr.1, r.2 :: rr.2)

/-- The submissions actually sent to the pool: the `Ok` outcomes. -/
def sent_submissions (outcomes : List (Except SubmitError SubmitSharesStandard)) :
    List SubmitSharesStandard :=
  outcomes.filterMap fun o =>
    match o with
    | Except.ok submit => some submit
    | Except.error _ => none

/-- The `ReplaceJob` events among `events` whose template id is the
decimal string of `job_id`. -/
def replace_jobs_for (job_id : Nat) (events : List SourceEvent) : List SourceEvent :=
  events.filter fun e =>
    match e with
    | SourceEvent.ReplaceJob template => template.id = decimal_string job_id
    | SourceEvent.UpdateJob _ => false

/-- Processing a stream of `NewMiningJob` messages, keeping the state
(`handle_new_mining_job` runs `clean_old_jobs(10)` after each one). -/
def process_new_jobs (st : ProtocolState) (jobs : List NewMiningJob) : ProtocolState :=
  jobs.foldl (fun s j => (handle_new_mining_job s j).1) st

/-- Whether a decoded frame is an `Unknown` response. -/
def response_is_unknown : FrameContent → Bool
  | FrameContent.Response (Response.Unknown _ _) => true
  | _ => false

/-- The effect of `store_future_job` on the key set of `future_jobs`. -/
def storeK (a : Nat) (ks : List Nat) : List Nat :=
  a :: ks.filter (· ≠ a)

/-- The effect of `clean_old_jobs` on the key set of `future_jobs`. -/
def cleanK (keep : Nat) (ks : List Nat) : List Nat :=
  if keep < ks.length then
    ks.filter fun x => !(((ks.insertionSort (· ≤ ·)).take (ks.length - keep)).contains x)
  else ks

/-- Invariant of the bounded future-job window: after processing the
(distinct) ids `ids`, the retained keys are distinct ids among `ids`,
exactly `min ids.length 10` many, and every id of `ids` that is not
retained is smaller than every retained key. -/
def WindowInv (ids ks : List Nat) : Prop :=
  ks.Nodup ∧ (∀ x ∈ ks, x ∈ ids) ∧ ks.length = min ids.length 10 ∧
    (∀ x ∈ ids, x ∉ ks → ∀ y ∈ ks, x < y)

/-! ## Theorems -/

/-- C1: the CRC check functions in dissect.rs are stubs.  `crc5_is_valid`
and `crc16_is_valid` return `true` on every input, so the dissector
reports `CrcStatus.Valid` for every structurally complete frame: in
particular two response frames that differ only in the low five bits of
the trailing CRC byte — at most one of which can carry the CRC-5 of the
covered bytes — are both reported `Valid`, and likewise two work frames
differing only in their CRC-16 trailer.  The claimed characteristic
property (`Valid` exactly when the CRC matches) therefore fails. -/
theorem crc_stubs_accept_all_frames :
    (∀ data : List Byte, crc5_is_valid data = true) ∧
    (∀ payload expected : List Byte, crc16_is_valid payload expected = true) ∧
    (dissect_response [0xAA, 0x55, 0x13, 0x00, 0x00, 0x00, 0x00, 0x00, 0x00]).2 =
      CrcStatus.Valid ∧
    (dissect_response [0xAA, 0x55, 0x13, 0x00, 0x00, 0x00, 0x00, 0x00, 0x1F]).2 =
      CrcStatus.Valid ∧
    (dissect_command [0x55, 0xAA, 0x01, 0x09, 0x01, 0x02, 0x03, 0x04, 0x00]).2 =
      CrcStatus.Valid ∧
    (dissect_command [0x55, 0xAA, 0x01, 0x09, 0x01, 0x02, 0x03, 0x04, 0x1F]).2 =
      CrcStatus.Valid := by
  exact ⟨fun _ => rfl, fun _ _ => rfl, by decide, by decide, by decide, by decide⟩

/-- C7: while a chip→host frame is being collected, `process_byte`
completes the frame exactly when the accumulated length `n` satisfies
`n ≥ 7 ∧ (n ≥ 20 ∨ n ∈ {7, 9, 10, 11})` (the literal `6` in the code's
common-length set is unreachable under `n ≥ 7`), and keeps collecting,
with the byte appended and the expected length unchanged, otherwise. -/
theorem chip_frame_completion :
    ∀ (start_time : ℚ) (data : List Byte) (expected_len : Option Nat) (byte : Byte)
      (timestamp : ℚ) (has_error : Bool),
      (7 ≤ data.length + 1 ∧ (20 ≤ data.length + 1 ∨ data.length + 1 = 7 ∨
          data.length + 1 = 9 ∨ data.length + 1 = 10 ∨ data.length + 1 = 11) →
        process_byte Direction.ChipToHost
            (AssemblyState.Collecting start_time data expected_len) byte timestamp has_error =
          (AssemblyState.Idle,
           some { direction := Direction.ChipToHost, start_time := start_time,
                  end_time := timestamp, data := data ++ [byte],
                  has_errors := has_error })) ∧
      (¬ (7 ≤ data.length + 1 ∧ (20 ≤ data.length + 1 ∨ data.length + 1 = 7 ∨
          data.length + 1 = 9 ∨ data.length + 1 = 10 ∨ data.length + 1 = 11)) →
        process_byte Direction.ChipToHost
            (AssemblyState.Collecting start_time data expected_len) byte timestamp has_error =
          (AssemblyState.Collecting start_time (data ++ [byte]) expected_len, none)) := by
  intro start_time data expected_len byte timestamp has_error
  constructor
  · intro h
    simp only [process_byte, List.length_append, List.length_cons, List.length_nil]
    rw [if_pos]
    simp only [Bool.and_eq_true, Bool.or_eq_true, decide_eq_true_iff]
    omega
  · intro h
    simp only [process_byte, List.length_append, List.length_cons, List.length_nil]
    rw [if_neg]
    · simp
    · simp only [Bool.and_eq_true, Bool.or_eq_true, decide_eq_true_iff]
      omega

/-- Witness for `chip_frame_completion`: a six-byte partial response
completes on the seventh byte, while a seven-byte partial response keeps
collecting on the eighth. -/
theorem chip_frame_completion_witness :
    process_byte Direction.ChipToHost
        (AssemblyState.Collecting 0 [0xAA, 0x55, 1, 2, 3, 4] none) 5 1 false =
      (AssemblyState.Idle,
       some { direction := Direction.ChipToHost, start_time := 0, end_time := 1,
              data := [0xAA, 0x55, 1, 2, 3, 4, 5], has_errors := false }) ∧
    process_byte Direction.ChipToHost
        (AssemblyState.Collecting 0 [0xAA, 0x55, 1, 2, 3, 4, 5] none) 6 2 false =
      (AssemblyState.Collecting 0 [0xAA, 0x55, 1, 2, 3, 4, 5, 6] none, none) := by
  constructor
  · have := (chip_frame_completion 0 [0xAA, 0x55, 1, 2, 3, 4] none 5 1 false).1 (by decide)
    simpa using this
  · have := (chip_frame_completion 0 [0xAA, 0x55, 1, 2, 3, 4, 5] none 6 2 false).2 (by decide)
    simpa using this

/-- Any 3-bit tag other than 2 and 6 falls through `from_u8` to
`RegisterRead` (0 maps there by its own arm). -/
theorem from_u8_collapse (v : Nat) (h2 : v ≠ 2) (h6 : v ≠ 6) :
    ResponseType.from_u8 v = ResponseType.RegisterRead := by
  unfold ResponseType.from_u8
  split <;> simp_all

/-- C10: `ResponseType::from_u8` maps every tag outside `{0, 2, 6}` to
`RegisterRead`, so `dissect_response` decodes a response frame whose
kind tag is unrecognised exactly as a register-read value, and the
decoder never produces `Response::Unknown`. -/
theorem unknown_tag_decodes_as_register_read :
    (∀ v : Nat, v ≠ 0 → v ≠ 2 → v ≠ 6 →
      ResponseType.from_u8 v = ResponseType.RegisterRead) ∧
    (∀ data : List Byte, response_is_unknown (dissect_response data).1 = false) ∧
    (∀ data : List Byte, 3 ≤ data.length → data.getD 0 0 = 0xAA → data.getD 1 0 = 0x55 →
      (data.getD (data.length - 1) 0) >>> 5 &&& 0x07 ≠ 2 →
      (data.getD (data.length - 1) 0) >>> 5 &&& 0x07 ≠ 6 →
      (dissect_response data).1 =
        if 9 ≤ data.length then
          FrameContent.Response (Response.RegisterValue [data.getD 2 0, data.getD 3 0]
            (data.getD 4 0)
            (u32_from_le (data.getD 5 0) (data.getD 6 0) (data.getD 7 0) (data.getD 8 0)))
        else FrameContent.Invalid "Register read response too short") := by
  refine ⟨fun v _ h2 h6 => from_u8_collapse v h2 h6, ?_, ?_⟩
  · intro data
    unfold dissect_response
    repeat' split
    all_goals first
      | rfl
      | (simp only []; split <;> rfl)
  · intro data h3 h0 h1 h2 h6
    unfold dissect_response
    rw [if_neg (by omega), if_neg]
    · simp only []
      rw [from_u8_collapse _ h2 h6]
    · push_neg
      exact ⟨h0, h1⟩

/-- Witness for `unknown_tag_decodes_as_register_read`: tag 5 collapses
to `RegisterRead`; a 9-byte response frame whose kind tag is 5 decodes
as a register-read value. -/
theorem unknown_tag_decodes_as_register_read_witness :
    ResponseType.from_u8 5 = ResponseType.RegisterRead ∧
    response_is_unknown (dissect_response [0xAA, 0x55, 0xFF]).1 = false ∧
    (dissect_response [0xAA, 0x55, 1, 2, 3, 4, 5, 6, 0xBF]).1 =
      FrameContent.Response (Response.RegisterValue [1, 2] 3 (u32_from_le 4 5 6 0xBF)) := by
  refine ⟨unknown_tag_decodes_as_register_read.1 5 (by decide) (by decide) (by decide),
    unknown_tag_decodes_as_register_read.2.1 [0xAA, 0x55, 0xFF], ?_⟩
  have := unknown_tag_decodes_as_register_read.2.2 [0xAA, 0x55, 1, 2, 3, 4, 5, 6, 0xBF]
    (by decide) (by decide) (by decide) (by decide) (by decide)
  simpa using this

/-- C8 counterexample: an address-only (empty-data) write transaction
immediately followed by a read to the same address is not fused by
`group_transactions` — the pair yields two operations, not the single
fused operation the claim requires. -/
theorem empty_write_read_not_fused :
    (group_transactions
      [{ start_time := 0, end_time := 1, address := 0x24, is_read := false,
         data := [], success := true },
       { start_time := 2, end_time := 3, address := 0x24, is_read := true,
         data := [0x5A], success := true }]).length = 2 ∧
    (group_transactions
      [{ start_time := 0, end_time := 1, address := 0x24, is_read := false,
         data := [], success := true },
       { start_time := 2, end_time := 3, address := 0x24, is_read := true,
         data := [0x5A], success := true }]).length ≠ 1 := by
  constructor <;> decide

/-- C8 (amended): whenever a non-read transaction carrying at least one
data byte is immediately followed by a read transaction to the same
address, `group_transactions` fuses the pair into one operation — its
register is the first written byte, its write data the remaining written
bytes (`none` encodes an empty remainder), its read data the read
transaction's bytes — consuming both transactions; a transaction not
heading such a pair yields exactly one operation of its own.  (An
empty-data write followed by a read is not fused; see the
counterexample.) -/
theorem group_transactions_pairing :
    (∀ (t1 t2 : I2cTransaction) (rest : List I2cTransaction) (d : Byte) (ds : List Byte),
      t1.is_read = false → t1.data = d :: ds → t2.is_read = true →
      t2.address = t1.address →
      group_transactions (t1 :: t2 :: rest) =
        { start_time := t1.start_time, end_time := t2.end_time, address := t1.address,
          register := some d,
          write_data := if ds = [] then none else some ds,
          read_data := some t2.data } :: group_transactions rest) ∧
    (∀ (t1 : I2cTransaction) (rest : List I2cTransaction),
      ¬ (t1.is_read = false ∧ t1.data ≠ [] ∧ ∃ t2 rest2, rest = t2 :: rest2 ∧
          t2.is_read = true ∧ t2.address = t1.address) →
      group_transactions (t1 :: rest) = single_op t1 :: group_transactions rest) := by
  constructor
  · intro t1 t2 rest d ds hr hdata hr2 haddr
    obtain ⟨s1, e1, a1, r1, dt1, u1⟩ := t1
    simp only at hr hdata
    subst hr hdata
    simp only [group_transactions, fused_op]
    rw [if_pos (by simp), if_pos ⟨hr2, haddr⟩]
    rcases ds with _ | ⟨d2, ds'⟩ <;> simp
  · intro t1 rest hnot
    rcases rest with _ | ⟨t2, rest2⟩
    · simp only [group_transactions]
      split
      · rfl
      · rfl
    · simp only [group_transactions]
      by_cases hg : t1.is_read = false ∧ 1 ≤ t1.data.length
      · rw [if_pos hg]
        rw [if_neg]
        intro hin
        exact hnot ⟨hg.1, by rcases ht : t1.data with _ | _ <;> simp [ht] at hg ⊢,
          t2, rest2, rfl, hin.1, hin.2⟩
      · rw [if_neg hg]

/-- Witness for `group_transactions_pairing`: a two-byte write followed
by a read at the same address fuses into one register operation, and a
lone read yields a single operation. -/
theorem group_transactions_pairing_witness :
    group_transactions
      [{ start_time := 0, end_time := 1, address := 36, is_read := false,
         data := [7, 8], success := true },
       { start_time := 2, end_time := 3, address := 36, is_read := true,
         data := [90], success := true }] =
      [{ start_time := 0, end_time := 3, address := 36, register := some 7,
         write_data := some [8], read_data := some [90] }] ∧
    group_transactions
      [{ start_time := 2, end_time := 3, address := 36, is_read := true,
         data := [90], success := true }] =
      [single_op ({ start_time := 2, end_time := 3, address := 36,
                    is_read := true, data := [90], success := true } : I2cTransaction)] := by
  constructor
  · have := group_transactions_pairing.1
      { start_time := 0, end_time := 1, address := 36, is_read := false,
        data := [7, 8], success := true }
      { start_time := 2, end_time := 3, address := 36, is_read := true,
        data := [90], success := true }
      [] 7 [8] rfl rfl rfl rfl
    simpa using this
  · have := group_transactions_pairing.2
      { start_time := 2, end_time := 3, address := 36, is_read := true,
        data := [90], success := true }
      [] (by simp)
    simpa using this

/-- Evaluating the digit list of `n` little-endian recovers `n`. -/
theorem ofDigits_decDigitsAux (fuel : Nat) :
    ∀ n : Nat, n ≤ fuel → Nat.ofDigits 10 (decDigitsAux fuel n).reverse = n := by
  induction fuel with
  | zero =>
      intro n hn
      interval_cases n
      simp [decDigitsAux, Nat.ofDigits]
  | succ fuel ih =>
      intro n hn
      by_cases h0 : n = 0
      · subst h0
        simp [decDigitsAux, Nat.ofDigits]
      · have hdiv : n / 10 ≤ fuel := by omega
        calc Nat.ofDigits 10 (decDigitsAux (fuel + 1) n).reverse
            = Nat.ofDigits 10 (n % 10 :: (decDigitsAux fuel (n / 10)).reverse) := by
              simp [decDigitsAux, h0]
          _ = n % 10 + 10 * Nat.ofDigits 10 (decDigitsAux fuel (n / 10)).reverse := by
              simp [Nat.ofDigits]
          _ = n % 10 + 10 * (n / 10) := by rw [ih _ hdiv]
          _ = n := by omega

/-- Every entry produced by `decDigitsAux` is a decimal digit. -/
theorem decDigitsAux_lt_ten (fuel : Nat) :
    ∀ n d : Nat, d ∈ decDigitsAux fuel n → d < 10 := by
  induction fuel with
  | zero => intro n d hd; simp [decDigitsAux] at hd
  | succ fuel ih =>
      intro n d hd
      by_cases h0 : n = 0
      · simp [decDigitsAux, h0] at hd
      · simp only [decDigitsAux, h0, if_false, List.mem_append, List.mem_singleton] at hd
        rcases hd with hd | hd
        · exact ih _ _ hd
        · omega

/-- A positive number renders to at least one digit. -/
theorem decDigitsAux_ne_nil (fuel : Nat) :
    ∀ n : Nat, 0 < n → n ≤ fuel → decDigitsAux fuel n ≠ [] := by
  cases fuel with
  | zero => intro n h1 h2; omega
  | succ fuel => intro n h1 _; simp [decDigitsAux, Nat.pos_iff_ne_zero.mp h1]

/-- Parsing the decimal rendering of a 32-bit value recovers the value:
the round-trip `u32 → to_string → parse::<u32>` is the identity. -/
theorem parse_decimal_roundtrip (n : Nat) (h : n < 2 ^ 32) :
    parse_u32 (decimal_string n) = some n := by
  by_cases h0 : n = 0
  · subst h0
    simp [decimal_string, parse_u32, Nat.ofDigits]
  · have hofd := ofDigits_decDigitsAux n n le_rfl
    unfold decimal_string parse_u32
    rw [if_neg h0, if_pos]
    · rw [hofd]
    · refine ⟨decDigitsAux_ne_nil n n (by omega) le_rfl, ?_, ?_⟩
      · intro d hd
        exact decDigitsAux_lt_ten n n d hd
      · rw [hofd]
        exact h

/-- Shared evaluation of `job_to_template` on well-formed inputs: both
length guards pass, `VersionTemplate::new` succeeds, and every template
field is spelled out. -/
theorem job_to_template_eq (job : NewMiningJob) (ph : SetNewPrevHash)
    (ct : List Byte) (mask : Option Nat)
    (hm : job.merkle_root.length = 32) (hp : ph.prev_hash.length = 32) :
    job_to_template job ph ct mask = some
      { id := decimal_string job.job_id
        prev_blockhash := ph.prev_hash
        version := { base := job.version
                     gp := match mask with
                           | some m => { bits := (m >>> 13) &&& 0xffff }
                           | none => { bits := 0xffff } }
        bits := ph.nbits
        share_target := if ct.length = 32 then target_from_le_bytes ct else target_max
        time := ph.min_ntime
        merkle_root := MerkleRootKind.Fixed job.merkle_root } := by
  unfold job_to_template VersionTemplate.new
  rw [if_pos hm, if_pos hp]
  cases mask with
  | none => rfl
  | some m =>
      have hv : ((m >>> 13) &&& 0xffff) / 256 * 256 + ((m >>> 13) &&& 0xffff) % 256 =
          (m >>> 13) &&& 0xffff := by omega
      simp [GeneralPurposeBits.new, u16_to_be, hv]

/-- C4: the template id of any `NewMiningJob` is the decimal string of
its 32-bit `job_id`, and `share_to_submit` parses a share carrying that
id back to exactly the originating `job_id`. -/
theorem job_id_roundtrip :
    ∀ (job : NewMiningJob) (ph : SetNewPrevHash) (ct : List Byte) (mask : Option Nat)
      (tmpl : JobTemplate) (share : Share) (c s : Nat),
      job.job_id < 2 ^ 32 →
      job_to_template job ph ct mask = some tmpl →
      share.job_id = tmpl.id →
      tmpl.id = decimal_string job.job_id ∧
      ∃ submit, share_to_submit share c s = some submit ∧
        submit.job_id = job.job_id ∧ submit.channel_id = c ∧
        submit.sequence_number = s := by
  intro job ph ct mask tmpl share c s hlt htmpl hshare
  have hid : tmpl.id = decimal_string job.job_id := by
    simp only [job_to_template, VersionTemplate.new, Option.map_some'] at htmpl
    split at htmpl
    · split at htmpl
      · simp only [Option.some.injEq] at htmpl
        rw [← htmpl]
      · exact absurd htmpl (by simp)
    · exact absurd htmpl (by simp)
  refine ⟨hid, ?_⟩
  unfold share_to_submit
  rw [hshare, hid, parse_decimal_roundtrip _ hlt]
  exact ⟨_, rfl, rfl, rfl, rfl⟩

/-- Witness for `job_id_roundtrip` at `job_id = 42`. -/
theorem job_id_roundtrip_witness :
    42 < 2 ^ 32 ∧
    (({ id := [4, 2], prev_blockhash := List.replicate 32 0x22,
        version := { base := 0x20000000, gp := { bits := 0xffff } },
        bits := 0x1a00ffff,
        share_target := Nat.ofDigits 256 (List.replicate 32 0xFF),
        time := 1700000000,
        merkle_root := MerkleRootKind.Fixed (List.replicate 32 0x11) } : JobTemplate).id =
          decimal_string 42 ∧
      ∃ submit,
        share_to_submit
          { job_id := [4, 2], nonce := 0xdeadbeef, time := 1700000010,
            version := 0x20200000, extranonce2 := none } 7 0 = some submit ∧
        submit.job_id = 42 ∧ submit.channel_id = 7 ∧ submit.sequence_number = 0) := by
  refine ⟨by norm_num, ?_⟩
  exact job_id_roundtrip
    { channel_id := 1, job_id := 42, is_future := true, version := 0x20000000,
      merkle_root := List.replicate 32 0x11 }
    { channel_id := 1, job_id := 42, prev_hash := List.replicate 32 0x22,
      min_ntime := 1700000000, nbits := 0x1a00ffff }
    (List.replicate 32 0xFF) none
    { id := [4, 2], prev_blockhash := List.replicate 32 0x22,
      version := { base := 0x20000000, gp := { bits := 0xffff } },
      bits := 0x1a00ffff,
      share_target := Nat.ofDigits 256 (List.replicate 32 0xFF),
      time := 1700000010 - 10,
      merkle_root := MerkleRootKind.Fixed (List.replicate 32 0x11) }
    { job_id := [4, 2], nonce := 0xdeadbeef, time := 1700000010,
      version := 0x20200000, extranonce2 := none }
    7 0 (by norm_num) (by decide) rfl

/-- C3: for every activation — `NewMiningJob`, matching
`SetNewPrevHash`, the current 32-byte target (all-ones when `SetTarget`
has not arrived, via `unwrap_or`), and the optional version-rolling
mask — the built `JobTemplate` has id the decimal string of `job_id`,
version base `NewMiningJob.version` with general-purpose bits
`(mask >> 13) & 0xffff` (`0xffff` when the mask is absent), bits
`SetNewPrevHash.nbits`, time `min_ntime`, the 32 prev-hash bytes, the
little-endian interpretation of the target, and a fixed merkle root. -/
theorem job_to_template_fields :
    ∀ (job : NewMiningJob) (ph : SetNewPrevHash) (ct : Option (List Byte))
      (mask : Option Nat),
      job.merkle_root.length = 32 → ph.prev_hash.length = 32 →
      (∀ t, ct = some t → t.length = 32) →
      ∃ tmpl,
        job_to_template job ph (ct.getD (List.replicate 32 0xFF)) mask = some tmpl ∧
        tmpl.id = decimal_string job.job_id ∧
        tmpl.version.base = job.version ∧
        tmpl.version.gp.bits =
          (match mask with
           | some m => (m >>> 13) &&& 0xffff
           | none => 0xffff) ∧
        tmpl.bits = ph.nbits ∧
        tmpl.time = ph.min_ntime ∧
        tmpl.prev_blockhash = ph.prev_hash ∧
        tmpl.share_target = target_from_le_bytes (ct.getD (List.replicate 32 0xFF)) ∧
        tmpl.merkle_root = MerkleRootKind.Fixed job.merkle_root := by
  intro job ph ct mask hm hp hct
  have hlen : (ct.getD (List.replicate 32 0xFF)).length = 32 := by
    cases ct with
    | none => simp
    | some t => simpa using hct t rfl
  refine ⟨_, job_to_template_eq job ph _ mask hm hp, rfl, rfl, ?_, rfl, rfl, rfl, ?_, rfl⟩
  · cases mask <;> rfl
  · show (if (ct.getD (List.replicate 32 0xFF)).length = 32 then _ else _) = _
    rw [if_pos hlen]

/-- Witness for `job_to_template_fields` on the happy-path scenario:
`job_id = 42`, all-ones default target, mask `0x1fffe000`. -/
theorem job_to_template_fields_witness :
    ∃ tmpl,
      job_to_template
        { channel_id := 1, job_id := 42, is_future := true, version := 0x20000000,
          merkle_root := List.replicate 32 0x11 }
        { channel_id := 1, job_id := 42, prev_hash := List.replicate 32 0x22,
          min_ntime := 1700000000, nbits := 0x1a00ffff }
        (List.replicate 32 0xFF) (some 0x1fffe000) = some tmpl ∧
      tmpl.id = decimal_string 42 ∧ tmpl.version.base = 0x20000000 ∧
      tmpl.version.gp.bits = 0xffff ∧ tmpl.bits = 0x1a00ffff ∧
      tmpl.time = 1700000000 ∧ tmpl.prev_blockhash = List.replicate 32 0x22 ∧
      tmpl.share_target = target_from_le_bytes (List.replicate 32 0xFF) ∧
      tmpl.merkle_root = MerkleRootKind.Fixed (List.replicate 32 0x11) := by
  obtain ⟨tmpl, h1, h2, h3, h4, h5, h6, h7, h8, h9⟩ := job_to_template_fields
    { channel_id := 1, job_id := 42, is_future := true, version := 0x20000000,
      merkle_root := List.replicate 32 0x11 }
    { channel_id := 1, job_id := 42, prev_hash := List.replicate 32 0x22,
      min_ntime := 1700000000, nbits := 0x1a00ffff }
    none (some 0x1fffe000) (by decide) (by decide) (by simp)
  refine ⟨tmpl, by simpa using h1, h2, h3, ?_, h5, h6, h7, by simpa using h8, h9⟩
  rw [h4]
  decide

/-- C2 counterexample: with `is_future = false` no `ReplaceJob` is ever
emitted for the pair — the non-future branch of `handle_new_mining_job`
emits `UpdateJob` (prev-hash first) or nothing (job first), so the
claimed "exactly one ReplaceJob for either arrival order, is_future
true or false" fails at this concrete non-future interleaving. -/
theorem nonfuture_job_no_replace_counterexample :
    (replace_jobs_for 42 (process_messages ProtocolState.new
      [PoolMessage.SNPH
         { channel_id := 1, job_id := 42, prev_hash := List.replicate 32 0x22,
           min_ntime := 1700000000, nbits := 0x1a00ffff },
       PoolMessage.NMJ
         { channel_id := 1, job_id := 42, is_future := false,
           version := 0x20000000, merkle_root := List.replicate 32 0x11 }]).2).length = 0 ∧
    (replace_jobs_for 42 (process_messages ProtocolState.new
      [PoolMessage.NMJ
         { channel_id := 1, job_id := 42, is_future := false,
           version := 0x20000000, merkle_root := List.replicate 32 0x11 },
       PoolMessage.SNPH
         { channel_id := 1, job_id := 42, prev_hash := List.replicate 32 0x22,
           min_ntime := 1700000000, nbits := 0x1a00ffff }]).2).length = 0 := by
  constructor <;> decide

/-- C2 (amended): starting from a state with no stored future job and no
pending prev-hash, processing one `NewMiningJob` with `is_future = true`
and one `SetNewPrevHash` for the same `job_id`, in either arrival order,
emits exactly one `ReplaceJob` whose template id is the decimal string
of that `job_id`; with `is_future = false` no `ReplaceJob` is emitted in
either order (an `UpdateJob` may be emitted instead). -/
theorem rendezvous_replace_job :
    ∀ (st0 : ProtocolState) (job : NewMiningJob) (ph : SetNewPrevHash),
      st0.future_jobs = [] → st0.prev_hash = none →
      job.merkle_root.length = 32 → ph.prev_hash.length = 32 →
      ph.job_id = job.job_id →
      (job.is_future = true →
        (replace_jobs_for job.job_id
          (process_messages st0 [PoolMessage.NMJ job, PoolMessage.SNPH ph]).2).length = 1 ∧
        (replace_jobs_for job.job_id
          (process_messages st0 [PoolMessage.SNPH ph, PoolMessage.NMJ job]).2).length = 1) ∧
      (job.is_future = false →
        (replace_jobs_for job.job_id
          (process_messages st0 [PoolMessage.NMJ job, PoolMessage.SNPH ph]).2).length = 0 ∧
        (replace_jobs_for job.job_id
          (process_messages st0 [PoolMessage.SNPH ph, PoolMessage.NMJ job]).2).length = 0) := by
  intro st0 job ph hfj hph hm hp hid
  obtain ⟨cid, seq, fj, phh, ct, vm⟩ := st0
  simp only at hfj hph
  subst hfj hph
  obtain ⟨jcid, jjid, jfut, jver, jmr⟩ := job
  obtain ⟨pcid, pjid, phash, pnt, pnb⟩ := ph
  simp only at hid hm hp
  subst hid
  have htp := job_to_template_eq
    { channel_id := jcid, job_id := pjid, is_future := jfut, version := jver,
      merkle_root := jmr }
    { channel_id := pcid, job_id := pjid, prev_hash := phash, min_ntime := pnt,
      nbits := pnb }
    (ct.getD default_target) vm hm hp
  constructor
  · intro hfut
    simp only at hfut
    subst hfut
    constructor
    · simp [process_messages, handle_pool_message, handle_new_mining_job,
        handle_set_new_prev_hash, activate_job, ProtocolState.store_future_job,
        ProtocolState.get_future_job, ProtocolState.clean_old_jobs,
        List.lookup, replace_jobs_for, htp]
    · simp [process_messages, handle_pool_message, handle_new_mining_job,
        handle_set_new_prev_hash, activate_job, ProtocolState.store_future_job,
        ProtocolState.get_future_job, ProtocolState.clean_old_jobs,
        List.lookup, replace_jobs_for, htp]
  · intro hfut
    simp only at hfut
    subst hfut
    constructor
    · simp [process_messages, handle_pool_message, handle_new_mining_job,
        handle_set_new_prev_hash, activate_job, ProtocolState.store_future_job,
        ProtocolState.get_future_job, ProtocolState.clean_old_jobs,
        List.lookup, replace_jobs_for, htp]
    · simp [process_messages, handle_pool_message, handle_new_mining_job,
        handle_set_new_prev_hash, activate_job, ProtocolState.store_future_job,
        ProtocolState.get_future_job, ProtocolState.clean_old_jobs,
        List.lookup, replace_jobs_for, htp]

/-- Witness for `rendezvous_replace_job`: the happy-path future job 42
activates exactly once in both arrival orders. -/
theorem rendezvous_replace_job_witness :
    (replace_jobs_for 42 (process_messages ProtocolState.new
      [PoolMessage.NMJ
         { channel_id := 1, job_id := 42, is_future := true,
           version := 0x20000000, merkle_root := List.replicate 32 0x11 },
       PoolMessage.SNPH
         { channel_id := 1, job_id := 42, prev_hash := List.replicate 32 0x22,
           min_ntime := 1700000000, nbits := 0x1a00ffff }]).2).length = 1 ∧
    (replace_jobs_for 42 (process_messages ProtocolState.new
      [PoolMessage.SNPH
         { channel_id := 1, job_id := 42, prev_hash := List.replicate 32 0x22,
           min_ntime := 1700000000, nbits := 0x1a00ffff },
       PoolMessage.NMJ
         { channel_id := 1, job_id := 42, is_future := true,
           version := 0x20000000, merkle_root := List.replicate 32 0x11 }]).2).length = 1 :=
  (rendezvous_replace_job ProtocolState.new
    { channel_id := 1, job_id := 42, is_future := true, version := 0x20000000,
      merkle_root := List.replicate 32 0x11 }
    { channel_id := 1, job_id := 42, prev_hash := List.replicate 32 0x22,
      min_ntime := 1700000000, nbits := 0x1a00ffff }
    rfl rfl (by decide) (by decide) rfl).1 rfl

/-- C5 counterexample: `next_sequence_number` is fetched before the
`job_id` parse, so a failed submission consumes a number.  After a
submission whose `job_id` does not parse, the first
`SubmitSharesStandard` actually forwarded to the pool carries sequence
number 1, not 0. -/
theorem sequence_number_skip_counterexample :
    ((sent_submissions (run_scheduler_commands
        { ProtocolState.new with channel_id := some 7 }
        [{ job_id := [99], nonce := 1, time := 2, version := 3, extranonce2 := none },
         { job_id := [4, 2], nonce := 1, time := 2, version := 3,
           extranonce2 := none }]).2).map (fun s => s.sequence_number)) = [1] ∧
    ((sent_submissions (run_scheduler_commands
        { ProtocolState.new with channel_id := some 7 }
        [{ job_id := [99], nonce := 1, time := 2, version := 3, extranonce2 := none },
         { job_id := [4, 2], nonce := 1, time := 2, version := 3,
           extranonce2 := none }]).2).map (fun s => s.sequence_number)) ≠ [0] := by
  constructor <;> decide

/-- Starting at any counter value `k` with `k + n` within the 32-bit
range, forwarding `n` parseable shares emits sequence numbers
`k, k+1, …, k+n-1`. -/
theorem run_seq_general :
    ∀ (shares : List Share) (st : ProtocolState) (c : Nat),
      st.channel_id = some c →
      st.sequence_number + shares.length ≤ 2 ^ 32 →
      (∀ sh ∈ shares, parse_u32 sh.job_id ≠ none) →
      (sent_submissions (run_scheduler_commands st shares).2).map
        (fun s => s.sequence_number) = List.range' st.sequence_number shares.length := by
  intro shares
  induction shares with
  | nil =>
      intro st c hc hb hp
      simp [run_scheduler_commands, sent_submissions]
  | cons sh rest ih =>
      intro st c hc hb hp
      obtain ⟨j, hj⟩ : ∃ j, parse_u32 sh.job_id = some j := by
        cases hpp : parse_u32 sh.job_id with
        | none => exact absurd hpp (hp sh (by simp))
        | some j => exact ⟨j, rfl⟩
      rcases rest with _ | ⟨sh2, rest2⟩
      · simp [run_scheduler_commands, handle_scheduler_command, hc,
          ProtocolState.next_sequence_number, share_to_submit, hj,
          sent_submissions, List.range']
      · have h1 : st.sequence_number + 1 < 2 ^ 32 := by
          have := hb
          simp only [List.length_cons] at this
          omega
        have hmod : (st.sequence_number + 1) % 2 ^ 32 = st.sequence_number + 1 :=
          Nat.mod_eq_of_lt h1
        rw [run_scheduler_commands]
        simp only [handle_scheduler_command, hc,
          ProtocolState.next_sequence_number, share_to_submit, hj, Option.map_some']
        rw [hmod]
        have hrec := ih { st with sequence_number := st.sequence_number + 1 }
          c hc
          (by show st.sequence_number + 1 + (sh2 :: rest2).length ≤ 2 ^ 32
              simp only [List.length_cons] at hb ⊢
              omega)
          (fun x hx => hp x (by simp [hx]))
        simp only [hc] at hrec
        simp only [sent_submissions] at hrec ⊢
        simp [hrec, List.range']

/-- C5 (amended): within one connection, starting from a fresh counter
with the channel open, if every submitted share's `job_id` parses as a
`u32` (a failed parse consumes a sequence number, see the
counterexample) and at most `2 ^ 32` shares are submitted, the n-th
`SubmitSharesStandard` forwarded to the pool carries sequence number n,
counting from 0. -/
theorem sequence_numbers_consecutive :
    ∀ (st0 : ProtocolState) (shares : List Share) (c : Nat),
      st0.channel_id = some c → st0.sequence_number = 0 →
      shares.length ≤ 2 ^ 32 →
      (∀ sh ∈ shares, parse_u32 sh.job_id ≠ none) →
      (sent_submissions (run_scheduler_commands st0 shares).2).map
        (fun s => s.sequence_number) = List.range shares.length := by
  intro st0 shares c hc h0 hb hp
  have h := run_seq_general shares st0 c hc (by omega) hp
  rw [List.range_eq_range']
  rw [h, h0]

/-- Witness for `sequence_numbers_consecutive`: two parseable shares are
forwarded with sequence numbers 0 and 1. -/
theorem sequence_numbers_consecutive_witness :
    (sent_submissions (run_scheduler_commands
        { ProtocolState.new with channel_id := some 7 }
        [{ job_id := [4, 2], nonce := 1, time := 2, version := 3, extranonce2 := none },
         { job_id := [9], nonce := 4, time := 5, version := 6,
           extranonce2 := none }]).2).map (fun s => s.sequence_number) =
      List.range 2 :=
  sequence_numbers_consecutive { ProtocolState.new with channel_id := some 7 }
    [{ job_id := [4, 2], nonce := 1, time := 2, version := 3, extranonce2 := none },
     { job_id := [9], nonce := 4, time := 5, version := 6, extranonce2 := none }]
    7 rfl rfl (by norm_num) (by decide)

/-- C9: a `SubmitShare` with no opened channel fails with a channel
error, leaves the state unchanged and sends nothing; with the channel
open but an unparsable `job_id` it fails with a per-operation error and
sends nothing; and the command loop processes every command — each
yields exactly one outcome, an error never terminates processing. -/
theorem submit_share_error_handling :
    (∀ (st : ProtocolState) (share : Share), st.channel_id = none →
      (handle_scheduler_command st share).2 = Except.error SubmitError.NoChannel ∧
      (handle_scheduler_command st share).1 = st ∧
      sent_submissions [(handle_scheduler_command st share).2] = []) ∧
    (∀ (st : ProtocolState) (share : Share) (c : Nat), st.channel_id = some c →
      parse_u32 share.job_id = none →
      (handle_scheduler_command st share).2 = Except.error SubmitError.InvalidJobId ∧
      sent_submissions [(handle_scheduler_command st share).2] = []) ∧
    (∀ (st : ProtocolState) (shares : List Share),
      ((run_scheduler_commands st shares).2).length = shares.length) := by
  refine ⟨?_, ?_, ?_⟩
  · intro st share hc
    simp [handle_scheduler_command, hc, sent_submissions]
  · intro st share c hc hparse
    simp [handle_scheduler_command, hc, share_to_submit, hparse, sent_submissions]
  · intro st shares
    induction shares generalizing st with
    | nil => simp [run_scheduler_commands]
    | cons sh rest ih => simp [run_scheduler_commands, ih]

/-- Witness for `submit_share_error_handling`: a channel-less submission
and a bad `job_id` submission both fail without sending, and a two-item
command list yields two outcomes. -/
theorem submit_share_error_handling_witness :
    (handle_scheduler_command ProtocolState.new
        { job_id := [4, 2], nonce := 1, time := 2, version := 3,
          extranonce2 := none }).2 = Except.error SubmitError.NoChannel ∧
    (handle_scheduler_command { ProtocolState.new with channel_id := some 7 }
        { job_id := [99], nonce := 1, time := 2, version := 3,
          extranonce2 := none }).2 = Except.error SubmitError.InvalidJobId ∧
    ((run_scheduler_commands ProtocolState.new
        [{ job_id := [4, 2], nonce := 1, time := 2, version := 3, extranonce2 := none },
         { job_id := [9], nonce := 4, time := 5, version := 6,
           extranonce2 := none }]).2).length = 2 :=
  ⟨(submit_share_error_handling.1 ProtocolState.new
      { job_id := [4, 2], nonce := 1, time := 2, version := 3,
        extranonce2 := none } rfl).1,
   (submit_share_error_handling.2.1 { ProtocolState.new with channel_id := some 7 }
      { job_id := [99], nonce := 1, time := 2, version := 3, extranonce2 := none }
      7 rfl (by decide)).1,
   submit_share_error_handling.2.2 ProtocolState.new
     [{ job_id := [4, 2], nonce := 1, time := 2, version := 3, extranonce2 := none },
      { job_id := [9], nonce := 4, time := 5, version := 6, extranonce2 := none }]⟩

/-- `List.contains` agrees with membership on naturals. -/
theorem contains_iff (l : List Nat) (a : Nat) : l.contains a = true ↔ a ∈ l := by
  simp [List.contains, List.elem_iff]

/-- Mapping `Prod.fst` commutes with filtering on the key. -/
theorem map_fst_filter (q : Nat → Bool) (l : List (Nat × NewMiningJob)) :
    (l.filter fun p => q p.1).map Prod.fst = (l.map Prod.fst).filter q := by
  induction l with
  | nil => simp
  | cons hd tl ih =>
      by_cases h : q hd.1 <;> simp [h, ih]

/-- `store_future_job` on key sets. -/
theorem jobKeys_store (st : ProtocolState) (job : NewMiningJob) :
    (st.store_future_job job).jobKeys = storeK job.job_id st.jobKeys := by
  simp only [ProtocolState.jobKeys, ProtocolState.store_future_job, storeK,
    List.map_cons]
  rw [map_fst_filter (fun k => decide (k ≠ job.job_id)) st.future_jobs]

/-- `clean_old_jobs` on key sets. -/
theorem jobKeys_clean (st : ProtocolState) (keep : Nat) :
    (st.clean_old_jobs keep).jobKeys = cleanK keep st.jobKeys := by
  simp only [ProtocolState.jobKeys, ProtocolState.clean_old_jobs, cleanK,
    List.length_map, List.length_insertionSort]
  split
  · rw [map_fst_filter
      (fun k =>
        !((((st.future_jobs.map Prod.fst).insertionSort (· ≤ ·)).take
            (st.future_jobs.length - keep)).contains k))
      st.future_jobs]
  · rfl

/-- `cleanK` only retains existing keys. -/
theorem cleanK_sub (keep : Nat) (ks : List Nat) :
    ∀ x ∈ cleanK keep ks, x ∈ ks := by
  intro x hx
  unfold cleanK at hx
  split at hx
  · exact List.mem_of_mem_filter hx
  · exact hx

/-- `cleanK` preserves distinctness. -/
theorem cleanK_nodup (keep : Nat) (ks : List Nat) (h : ks.Nodup) :
    (cleanK keep ks).Nodup := by
  unfold cleanK
  split
  · exact List.Nodup.filter _ h
  · exact h

/-- Every key evicted by `cleanK` is smaller than every retained key:
the evicted keys form a prefix of the ascending sort of the key list. -/
theorem cleanK_dominance (keep : Nat) (ks : List Nat) :
    ∀ x ∈ ks, x ∉ cleanK keep ks → ∀ y ∈ cleanK keep ks, x < y := by
  intro x hxks hx y hy
  unfold cleanK at hx hy
  split at hx
  case isFalse h => exact absurd hxks hx
  case isTrue h =>
    rw [if_pos h] at hy
    have hsorted : (ks.insertionSort (· ≤ ·)).Sorted (· ≤ ·) :=
      List.sorted_insertionSort (· ≤ ·) ks
    have hperm : (ks.insertionSort (· ≤ ·)).Perm ks := List.perm_insertionSort (· ≤ ·) ks
    set s := ks.insertionSort (· ≤ ·) with hs
    set t := ks.length - keep with ht
    rw [List.mem_filter] at hy
    have hxT : x ∈ s.take t := by
      by_contra hxT
      apply hx
      rw [List.mem_filter]
      refine ⟨hxks, ?_⟩
      simp only [Bool.not_eq_true']
      rw [← Bool.not_eq_true]
      intro hcont
      exact hxT ((contains_iff _ _).mp hcont)
    have hyT : y ∉ s.take t := by
      intro hyT
      have h2 := hy.2
      rw [Bool.not_eq_true'] at h2
      rw [(contains_iff _ _).mpr hyT] at h2
      cases h2
    have hyS : y ∈ s := hperm.mem_iff.mpr hy.1
    have hyD : y ∈ s.drop t := by
      have hsplit : y ∈ s.take t ++ s.drop t := by rw [List.take_append_drop]; exact hyS
      rcases List.mem_append.mp hsplit with h2 | h2
      · exact absurd h2 hyT
      · exact h2
    have hpair : ∀ a ∈ s.take t, ∀ b ∈ s.drop t, a ≤ b := by
      have h2 := hsorted
      rw [← List.take_append_drop t s] at h2
      exact (List.pairwise_append.mp h2).2.2
    have hle : x ≤ y := hpair x hxT y hyD
    have hne : x ≠ y := fun hxy => hyT (hxy ▸ hxT)
    exact lt_of_le_of_ne hle hne

/-- On a distinct key list, `cleanK keep` retains exactly
`min length keep` keys. -/
theorem cleanK_length (keep : Nat) (ks : List Nat) (hnd : ks.Nodup) :
    (cleanK keep ks).length = min ks.length keep := by
  unfold cleanK
  split
  case isFalse h => omega
  case isTrue h =>
    set s := ks.insertionSort (· ≤ ·) with hs
    set t := ks.length - keep with ht
    have hperm : s.Perm ks := List.perm_insertionSort _ ks
    have hslen : s.length = ks.length := hperm.length_eq
    have hsnd : s.Nodup := hperm.nodup_iff.mpr hnd
    have hTnd : (s.take t).Nodup := List.Nodup.sublist (List.take_sublist t s) hsnd
    have hTlen : (s.take t).length = t := by
      rw [List.length_take, hslen]
      omega
    have hcf : ∀ z : Nat, (!((s.take t).contains z)) = true ↔ z ∉ s.take t := by
      intro z
      rw [Bool.not_eq_true']
      constructor
      · intro h0 hmem
        rw [(contains_iff _ _).mpr hmem] at h0
        cases h0
      · intro hmem
        cases hc : (s.take t).contains z with
        | false => rfl
        | true => exact absurd ((contains_iff _ _).mp hc) hmem
    have hfnd : (List.filter (fun x => !((s.take t).contains x)) ks).Nodup :=
      List.Nodup.filter _ hnd
    have hset : (List.filter (fun x => !((s.take t).contains x)) ks).toFinset =
        ks.toFinset \ (s.take t).toFinset := by
      ext z
      simp only [List.mem_toFinset, List.mem_filter, Finset.mem_sdiff, hcf]
    have hTfin_sub : (s.take t).toFinset ⊆ ks.toFinset := by
      intro z hz
      rw [List.mem_toFinset] at hz ⊢
      exact hperm.mem_iff.mp ((List.take_sublist t s).subset hz)
    rw [← List.toFinset_card_of_nodup hfnd, hset, Finset.card_sdiff hTfin_sub,
      List.toFinset_card_of_nodup hnd, List.toFinset_card_of_nodup hTnd, hTlen]
    omega

/-- Inserting a fresh key is a plain cons. -/
theorem storeK_fresh (a : Nat) (ks : List Nat) (h : a ∉ ks) :
    storeK a ks = a :: ks := by
  unfold storeK
  congr 1
  rw [List.filter_eq_self]
  intro x hx
  have hne : x ≠ a := fun hxa => h (hxa ▸ hx)
  simpa using hne

/-- `clean_old_jobs` leaves the pending prev-hash untouched. -/
theorem clean_preserves_prev (st : ProtocolState) (keep : Nat) :
    (st.clean_old_jobs keep).prev_hash = st.prev_hash := by
  unfold ProtocolState.clean_old_jobs
  split <;> rfl

/-- With no pending prev-hash, handling a future `NewMiningJob` is
exactly store-then-cleanup on the key set, and leaves no prev-hash. -/
theorem handle_future_keys (st : ProtocolState) (job : NewMiningJob)
    (hf : job.is_future = true) (hph : st.prev_hash = none) :
    (handle_new_mining_job st job).1.jobKeys =
      cleanK 10 (storeK job.job_id st.jobKeys) ∧
    (handle_new_mining_job st job).1.prev_hash = none := by
  have hph1 : (st.store_future_job job).prev_hash = none := by
    simpa [ProtocolState.store_future_job] using hph
  constructor
  · unfold handle_new_mining_job
    rw [hf]
    simp only [if_true, hph1]
    rw [jobKeys_clean, jobKeys_store]
  · unfold handle_new_mining_job
    rw [hf]
    simp only [if_true, hph1]
    rw [clean_preserves_prev]
    exact hph1

/-- One window step: inserting a fresh id and cleaning to 10 preserves
the top-10 invariant. -/
theorem windowInv_step (ids ks : List Nat) (a : Nat)
    (hids : ids.Nodup) (ha : a ∉ ids) (hinv : WindowInv ids ks) :
    WindowInv (ids ++ [a]) (cleanK 10 (storeK a ks)) := by
  obtain ⟨hnd, hsub, hlen, hdom⟩ := hinv
  have haks : a ∉ ks := fun h => ha (hsub a h)
  rw [storeK_fresh a ks haks]
  have hnd' : (a :: ks).Nodup := by simp [List.nodup_cons, haks, hnd]
  by_cases h10 : ks.length < 10
  · have hnoclean : cleanK 10 (a :: ks) = a :: ks := by
      unfold cleanK
      rw [if_neg]
      simp only [List.length_cons]
      omega
    rw [hnoclean]
    refine ⟨hnd', ?_, ?_, ?_⟩
    · intro x hx
      rcases List.mem_cons.mp hx with h | h
      · subst h
        exact List.mem_append.mpr (Or.inr (by simp))
      · exact List.mem_append.mpr (Or.inl (hsub x h))
    · simp only [List.length_cons, List.length_append, List.length_singleton,
        List.length_nil]
      omega
    · intro x hxids hxnot y hy
      exfalso
      rcases List.mem_append.mp hxids with hxi | hxi
      · have h1 : ks.toFinset ⊆ ids.toFinset := by
          intro z hz
          rw [List.mem_toFinset] at hz ⊢
          exact hsub z hz
        have hcards : ids.toFinset.card ≤ ks.toFinset.card := by
          rw [List.toFinset_card_of_nodup hnd, List.toFinset_card_of_nodup hids]
          omega
        have heq := Finset.eq_of_subset_of_card_le h1 hcards
        have hxks : x ∈ ks := by
          have hx1 : x ∈ ids.toFinset := List.mem_toFinset.mpr hxi
          rw [← heq] at hx1
          exact List.mem_toFinset.mp hx1
        exact hxnot (List.mem_cons.mpr (Or.inr hxks))
      · simp only [List.mem_singleton] at hxi
        subst hxi
        exact hxnot (by simp)
  · set ks' := cleanK 10 (a :: ks) with hks'
    have hcsub : ∀ x ∈ ks', x ∈ a :: ks := cleanK_sub 10 (a :: ks)
    have hcnd : ks'.Nodup := cleanK_nodup 10 (a :: ks) hnd'
    have hclen : ks'.length = 10 := by
      rw [hks', cleanK_length 10 (a :: ks) hnd']
      simp only [List.length_cons]
      omega
    have hcdom := cleanK_dominance 10 (a :: ks)
    refine ⟨hcnd, ?_, ?_, ?_⟩
    · intro x hx
      rcases List.mem_cons.mp (hcsub x hx) with h | h
      · subst h
        exact List.mem_append.mpr (Or.inr (by simp))
      · exact List.mem_append.mpr (Or.inl (hsub x h))
    · simp only [List.length_append, List.length_singleton, List.length_nil,
        List.length_cons]
      omega
    · intro x hxids hxnot y hy
      by_cases hxmem : x ∈ a :: ks
      · exact hcdom x hxmem hxnot y hy
      · have hxids' : x ∈ ids := by
          rcases List.mem_append.mp hxids with h | h
          · exact h
          · exfalso
            simp only [List.mem_singleton] at h
            subst h
            exact hxmem (by simp)
        have hxks : x ∉ ks := fun h => hxmem (List.mem_cons.mpr (Or.inr h))
        have hxlt : ∀ z ∈ ks, x < z := hdom x hxids' hxks
        rcases List.mem_cons.mp (hcsub y hy) with hya | hyk
        · subst hya
          have hex : ∃ e ∈ ks, e ∉ ks' := by
            by_contra hno
            push_neg at hno
            have hsubfin : (y :: ks).toFinset ⊆ ks'.toFinset := by
              intro z hz
              rw [List.mem_toFinset] at hz ⊢
              rcases List.mem_cons.mp hz with h | h
              · subst h
                exact hy
              · exact hno z h
            have hcards := Finset.card_le_card hsubfin
            rw [List.toFinset_card_of_nodup hnd', List.toFinset_card_of_nodup hcnd]
              at hcards
            simp only [List.length_cons] at hcards
            omega
          obtain ⟨e, heks, henot⟩ := hex
          have h1 : x < e := hxlt e heks
          have h2 : e < y := hcdom e (List.mem_cons.mpr (Or.inr heks)) henot y hy
          omega
        · exact hxlt y hyk

/-- Folding future jobs with fresh distinct ids through
`handle_new_mining_job` maintains the top-10 window invariant and never
sets a prev-hash. -/
theorem window_fold (jobs : List NewMiningJob) :
    ∀ (ids : List Nat) (st : ProtocolState),
      st.prev_hash = none →
      (∀ j ∈ jobs, j.is_future = true) →
      (ids ++ jobs.map NewMiningJob.job_id).Nodup →
      WindowInv ids st.jobKeys →
      WindowInv (ids ++ jobs.map NewMiningJob.job_id)
        (process_new_jobs st jobs).jobKeys ∧
      (process_new_jobs st jobs).prev_hash = none := by
  induction jobs with
  | nil =>
      intro ids st hph _ hnd hinv
      simpa [process_new_jobs] using ⟨hinv, hph⟩
  | cons j js ih =>
      intro ids st hph hfut hnd hinv
      have hstep := handle_future_keys st j (hfut j (by simp)) hph
      rw [List.map_cons] at hnd
      have hnd' : ((ids ++ [j.job_id]) ++ js.map NewMiningJob.job_id).Nodup := by
        rw [List.append_assoc, List.singleton_append]
        exact hnd
      have hids : ids.Nodup := (List.nodup_append.mp hnd).1
      have ha : j.job_id ∉ ids := by
        intro hmem
        exact (List.nodup_append.mp hnd).2.2 hmem (by simp)
      have hinv' := windowInv_step ids st.jobKeys j.job_id hids ha hinv
      rw [← hstep.1] at hinv'
      have hres := ih (ids ++ [j.job_id]) (handle_new_mining_job st j).1 hstep.2
        (fun x hx => hfut x (by simp [hx])) hnd' hinv'
      rw [List.append_assoc, List.singleton_append] at hres
      have heq : process_new_jobs st (j :: js) =
          process_new_jobs (handle_new_mining_job st j).1 js := rfl
      rw [List.map_cons, heq]
      exact hres

/-- C6: `clean_old_jobs(10)` runs after every `NewMiningJob`, so from a
fresh rendezvous state, after 15 future jobs with distinct ids the
window holds exactly the 10 largest ids (10 keys, all among the
processed ids, every non-retained id below every retained one); after
every prefix of the stream at most 10 jobs are held; and at each single
step every evicted key is smaller than every retained key. -/
theorem future_jobs_window :
    (∀ (st0 : ProtocolState) (jobs : List NewMiningJob),
      st0.future_jobs = [] → st0.prev_hash = none →
      (∀ j ∈ jobs, j.is_future = true) →
      (jobs.map NewMiningJob.job_id).Nodup →
      (jobs.length = 15 →
        (process_new_jobs st0 jobs).jobKeys.length = 10 ∧
        (∀ x ∈ (process_new_jobs st0 jobs).jobKeys,
          x ∈ jobs.map NewMiningJob.job_id) ∧
        (∀ x ∈ jobs.map NewMiningJob.job_id,
          x ∉ (process_new_jobs st0 jobs).jobKeys →
          ∀ y ∈ (process_new_jobs st0 jobs).jobKeys, x < y)) ∧
      (∀ n, (process_new_jobs st0 (jobs.take n)).jobKeys.length ≤ 10)) ∧
    (∀ (s : ProtocolState) (j : NewMiningJob),
      j.is_future = true → s.prev_hash = none →
      ∀ x ∈ (s.store_future_job j).jobKeys,
        x ∉ (handle_new_mining_job s j).1.jobKeys →
        ∀ y ∈ (handle_new_mining_job s j).1.jobKeys, x < y) := by
  constructor
  · intro st0 jobs hfj hph hfut hnd
    have hbase : WindowInv [] st0.jobKeys := by
      refine ⟨?_, ?_, ?_, ?_⟩ <;> simp [ProtocolState.jobKeys, hfj]
    constructor
    · intro h15
      have hres := (window_fold jobs [] st0 hph hfut (by simpa using hnd) hbase).1
      simp only [List.nil_append] at hres
      obtain ⟨hnd2, hsub2, hlen2, hdom2⟩ := hres
      refine ⟨?_, hsub2, hdom2⟩
      rw [hlen2, List.length_map, h15]
      omega
    · intro n
      have hfut' : ∀ j ∈ jobs.take n, j.is_future = true :=
        fun j hj => hfut j ((List.take_sublist n jobs).subset hj)
      have hnd' : ((jobs.take n).map NewMiningJob.job_id).Nodup := by
        rw [List.map_take]
        exact List.Nodup.sublist (List.take_sublist n _) hnd
      have hres := (window_fold (jobs.take n) [] st0 hph hfut'
        (by simpa using hnd') hbase).1
      obtain ⟨_, _, hlen2, _⟩ := hres
      simp only [List.nil_append] at hlen2
      rw [hlen2]
      omega
  · intro s j hf hph x hx hxnot y hy
    have hstep := handle_future_keys s j hf hph
    rw [hstep.1] at hxnot hy
    rw [jobKeys_store] at hx
    exact cleanK_dominance 10 (storeK j.job_id s.jobKeys) x hx hxnot y hy

/-- Witness for `future_jobs_window`: pushing future jobs with ids
1..15 leaves exactly 10 entries in the window. -/
theorem future_jobs_window_witness :
    ((List.range 15).map (fun i =>
      ({ channel_id := 1, job_id := i + 1, is_future := true, version := 0,
         merkle_root := [] } : NewMiningJob))).length = 15 ∧
    (process_new_jobs ProtocolState.new
      ((List.range 15).map (fun i =>
        ({ channel_id := 1, job_id := i + 1, is_future := true, version := 0,
           merkle_root := [] } : NewMiningJob)))).jobKeys.length = 10 :=
  ⟨by decide,
   ((future_jobs_window.1 ProtocolState.new
      ((List.range 15).map (fun i =>
        ({ channel_id := 1, job_id := i + 1, is_future := true, version := 0,
           merkle_root := [] } : NewMiningJob)))
      rfl rfl (by decide) (by decide)).1 (by decide)).1⟩

end Mujina
